import Mathlib

/-!
Verification of the 1brc row-splitting and aggregation program
(`src/main.cc`).  Bytes are modelled as natural numbers (the newline
delimiter is byte 10, the field separator `;` is byte 59), buffers as
`List Nat`, and a line span as a pair `(offset, length)` into the buffer,
mirroring the `std::string_view` values the C++ code builds from the
mapped buffer.
-/

namespace OneBRC

/-- A line span: offset and length into the mapped buffer. -/
abbrev Span := Nat × Nat

/-- The newline delimiter byte. -/
def NL : Nat := 10

/-- ASCII bytes of a Lean string literal (used only to write concrete
test buffers). -/
def strBytes (s : String) : List Nat := s.toList.map Char.toNat

/-- Loop body of `split_by_rows_naive` (src/main.cc:124-141): walk the
remaining bytes (`rest`), `i` is the absolute index of the head of
`rest`, `start` the current line start; on a newline emit
`(start, i - start)` and restart after it; at the end emit the final
piece when `start < size`. -/
def naiveGo : List Nat → Nat → Nat → List Span
  | [], i, start => if start < i then [(start, i - start)] else []
  | b :: rest, i, start =>
    if b = NL then (start, i - start) :: naiveGo rest (i + 1) (i + 1)
    else naiveGo rest (i + 1) start

/-- `split_by_rows_naive` (src/main.cc:124-141): scalar byte-by-byte scan. -/
def split_by_rows_naive (data : List Nat) : List Span :=
  naiveGo data 0 0

/-- Scalar remainder loop shared by the SSE2/AVX2/AVX-512 splitters
(src/main.cc:165-177 and the analogous tails): identical to the naive
loop except that the final piece is emitted when `start != data`
(pointer inequality), i.e. `start ≠ i`. -/
def tailGo : List Nat → Nat → Nat → List Span
  | [], i, start => if start ≠ i then [(start, i - start)] else []
  | b :: rest, i, start =>
    if b = NL then (start, i - start) :: tailGo rest (i + 1) (i + 1)
    else tailGo rest (i + 1) start

/-- The per-block newline bitmask: bit `j` is set iff byte `j` of the
block equals the newline delimiter.  Models `_mm_movemask_epi8 ∘
_mm_cmpeq_epi8` (and the AVX2/AVX-512 analogues), whose lane order is
little-endian: lane 0 is bit 0. -/
def blockMask : List Nat → Nat
  | [] => 0
  | b :: rest => (if b = NL then 1 else 0) + 2 * blockMask rest

/-- Trailing-zero count (`_tzcnt_u32` / `_tzcnt_u64`) on a nonzero mask. -/
def tzcnt (m : Nat) : Nat :=
  if m = 0 then 0
  else if m % 2 = 1 then 0
  else tzcnt (m / 2) + 1
decreasing_by exact Nat.div_lt_self (Nat.pos_of_ne_zero (by assumption)) (by decide)

/-- The positions of the set bits of a mask, in increasing order, as
produced by the inner `while (mask != 0)` loop: extract the lowest set
bit with `tzcnt`, then clear it with `mask &= mask - 1`. -/
def maskPositions (m : Nat) : List Nat :=
  if h : m = 0 then []
  else tzcnt m :: maskPositions (m &&& (m - 1))
decreasing_by
  calc m &&& (m - 1) ≤ m - 1 := Nat.and_le_right
    _ < m := Nat.sub_lt (Nat.pos_of_ne_zero h) (by decide)

/-- Emit one span per set-bit position of the current block's mask
(the body of the `while (mask != 0)` loop): `base` is the absolute
offset of the block, `start` the current line start; each position `p`
yields the span `(start, base + p - start)` and moves the line start to
`base + p + 1`.  Returns the emitted spans and the final line start. -/
def emitBlock (base : Nat) : List Nat → Nat → List Span × Nat
  | [], start => ([], start)
  | p :: rest, start =>
    ((start, base + p - start) :: (emitBlock base rest (base + p + 1)).1,
     (emitBlock base rest (base + p + 1)).2)

/-- The vectorized splitter loop, generic in the block width `W`
(16 for SSE2, 32 for AVX2, 64 for AVX-512): while at least `W` bytes
remain, load a `W`-byte block, compute the newline mask, emit a span
per set bit, and advance by `W`; then run the scalar remainder loop. -/
def simdLoop (W : Nat) : List Nat → Nat → Nat → List Span
  | data, base, start =>
    if h : 0 < W ∧ W ≤ data.length then
      (emitBlock base (maskPositions (blockMask (data.take W))) start).1 ++
        simdLoop W (data.drop W) (base + W)
          (emitBlock base (maskPositions (blockMask (data.take W))) start).2
    else
      tailGo data base start
termination_by data _ _ => data.length
decreasing_by
  simp only [List.length_drop]
  exact Nat.sub_lt (Nat.lt_of_lt_of_le h.1 h.2) h.1

/-- `split_by_rows_sse2` (src/main.cc:143-180): 16-byte blocks. -/
def split_by_rows_sse2 (data : List Nat) : List Span :=
  simdLoop 16 data 0 0

/-- `split_by_rows_avx2` (src/main.cc:182-219): 32-byte blocks. -/
def split_by_rows_avx2 (data : List Nat) : List Span :=
  simdLoop 32 data 0 0

/-- `split_by_rows_avx512` (src/main.cc:221-258): 64-byte blocks. -/
def split_by_rows_avx512 (data : List Nat) : List Span :=
  simdLoop 64 data 0 0

/-- The bytes of a span of the buffer. -/
def spanBytes (data : List Nat) (sp : Span) : List Nat :=
  (data.drop sp.1).take sp.2

/-- `StationData` (src/main.cc:83-91).  Temperatures are modelled as
rationals (the float rounding of individual values is not at issue in
the claims below); `count` is the C++ 32-bit `uint`, modelled as a
natural number reduced modulo `2 ^ 32` on every increment. -/
structure StationData where
  min : ℚ
  max : ℚ
  count : Nat
  sum : ℚ
deriving DecidableEq, Repr

/-- Modulus of the 32-bit `uint count` field. -/
def U32 : Nat := 2 ^ 32

/-- The `StationData(float)` constructor (src/main.cc:90). -/
def StationData.init (t : ℚ) : StationData := ⟨t, t, 1, t⟩

/-- The update applied under the per-key lock (src/main.cc:117-121):
narrow `min`, widen `max`, increment `count` (with 32-bit wraparound),
add to `sum`. -/
def StationData.update (s : StationData) (t : ℚ) : StationData :=
  ⟨Min.min s.min t, Max.max s.max t, (s.count + 1) % U32, s.sum + t⟩

/-- Insert-or-update of one `(key, value)` record into the station map
(the sequential content of `process_line`'s map manipulation,
src/main.cc:107-122): a new key is inserted with the constructor, an
existing key's accumulator is updated.  The map is modelled as an
association list with byte-list keys (string identity). -/
def storeUpsert (m : List (List Nat × StationData)) (k : List Nat) (v : ℚ) :
    List (List Nat × StationData) :=
  if m.any (fun e => e.1 == k) then
    m.map (fun e => if e.1 == k then (e.1, e.2.update v) else e)
  else
    m ++ [(k, StationData.init v)]

/-- Apply a sequence of records to an initially empty station map. -/
def storeRun (recs : List (List Nat × ℚ)) : List (List Nat × StationData) :=
  recs.foldl (fun m r => storeUpsert m r.1 r.2) []

/-- ASCII decimal digit test. -/
def isDigit (b : Nat) : Bool := 48 ≤ b && b ≤ 57

/-- Split off the longest run of leading decimal digits. -/
def takeDigits : List Nat → List Nat × List Nat
  | [] => ([], [])
  | b :: r =>
    if isDigit b then
      let out := takeDigits r
      (b :: out.1, out.2)
    else ([], b :: r)

/-- Value of a digit run. -/
def digitsToNat (ds : List Nat) : Nat :=
  ds.foldl (fun a b => 10 * a + (b - 48)) 0

/-- `std::from_chars` for a float over a byte range, as a rational:
optional minus sign, then at least one digit, then an optional `.` with
fraction digits; trailing non-numeric bytes are ignored (longest valid
numeric leading run); if the range starts with no valid number the
parse fails and the output variable is left unmodified (`none`). -/
def fromCharsQ (s : List Nat) : Option ℚ :=
  let signed : Bool × List Nat :=
    match s with
    | 45 :: r => (true, r)
    | _ => (false, s)
  let intPart := takeDigits signed.2
  if intPart.1 = [] then none
  else
    let scaled : Nat × Nat :=
      match intPart.2 with
      | 46 :: r2 =>
        let frac := (takeDigits r2).1
        (digitsToNat intPart.1 * 10 ^ frac.length + digitsToNat frac, frac.length)
      | _ => (digitsToNat intPart.1, 0)
    let n : Int := if signed.1 then -(scaled.1 : Int) else (scaled.1 : Int)
    some (mkRat n (10 ^ scaled.2))

/-- The parsing step of `process_line` (src/main.cc:97-105): find the
first `;` (byte 59), take everything before it as the station key, and
run `from_chars` over the one-byte range `[pos, pos + 1)` — starting at
the separator itself, exactly as the source passes
`line.data() + pos, line.data() + pos + 1`.  `none` means the parse
failed and `temperature` stays uninitialized. -/
def process_line_parsed (line : List Nat) : List Nat × Option ℚ :=
  let pos := line.findIdx (· == 59)
  (line.take pos, fromCharsQ ((line.drop pos).take 1))

/-- Modelled from the spec: the Record Parser contract of §4.2 — split
the line at the first occurrence of the field separator, everything
before it is the key, and the entire numeric text after it is decoded
into the value; a line without a separator or without a valid number is
malformed.  (No such parser exists in the source: `process_line`'s
actual `from_chars` range is `[pos, pos + 1)`.) -/
def specParseLine (line : List Nat) : Option (List Nat × ℚ) :=
  let pos := line.findIdx (· == 59)
  if pos = line.length then none
  else (fromCharsQ (line.drop (pos + 1))).map (fun v => (line.take pos, v))

/-- Modelled from the spec: the single-threaded naive reference reducer
of §8 ("Aggregation correctness") — split the buffer into lines, parse
each line per the §4.2 contract, and fold every record into the store
with insert-or-update.  (The repository has no such reference reducer.) -/
def referenceReduce (data : List Nat) : List (List Nat × StationData) :=
  ((split_by_rows_naive data).map (spanBytes data)).foldl
    (fun m line =>
      match specParseLine line with
      | none => m
      | some kv => storeUpsert m kv.1 kv.2)
    []

/-- Decimal digits (ASCII) of a natural number, accumulator form; the
first argument is recursion fuel (any value ≥ the digit count works,
and `natStr` passes `n` itself). -/
def natStrGo : Nat → Nat → List Nat → List Nat
  | 0, _, acc => acc
  | fuel + 1, n, acc =>
    if n = 0 then acc else natStrGo fuel (n / 10) ((n % 10 + 48) :: acc)

/-- Decimal ASCII representation of a natural number, as printed by
`operator<<` for `results.size()`. -/
def natStr (n : Nat) : List Nat :=
  if n = 0 then [48] else natStrGo n n []

/-- Result of one program run: a normal exit with an exit code, stdout
and stderr bytes, or an abnormal termination from an uncaught exception
(`std::terminate`), with the stdout bytes already written. -/
inductive Outcome where
  | exited (code : Nat) (out err : List Nat)
  | aborted (out : List Nat)
deriving DecidableEq, Repr

/-- stdout of the reporting loop (src/main.cc:296-302) as it runs in
this program: `main` never submits any work to the thread pool and
never calls `process_line` — the split results feed only the diagnostic
line — so the global `station_map` is still empty when the loop runs,
it iterates zero times, and only the braces and the final newline are
written. -/
def emptySummary : List Nat := strBytes "\x7b\x7d" ++ [10]

/-- The body of `main` after a successful mapping (src/main.cc:283-305):
split the buffer with the AVX-512 splitter, print
`"AVX512 results: <count>\n"`, then print the first span via
`results.at(0)` — which throws `std::out_of_range` and terminates the
process when the span vector is empty, after the count line has already
been written — then wait for the (empty) thread pool and print the
summary of the (empty) station map. -/
def mainRun (data : List Nat) : Outcome :=
  let results := split_by_rows_avx512 data
  let countLine := strBytes "AVX512 results: " ++ natStr results.length ++ [10]
  match results.head? with
  | none => Outcome.aborted countLine
  | some sp =>
    Outcome.exited 0 (countLine ++ spanBytes data sp ++ [10] ++ emptySummary) []

/-- The usage message printed on a wrong argument count (src/main.cc:271). -/
def usageMsg : List Nat := strBytes "Error: provide absolute path to dataset" ++ [10]

/-- The full diagnostic block written to stdout on a successful run:
the count line followed by the first span and a newline. -/
def diagBytes (data : List Nat) : List Nat :=
  let results := split_by_rows_avx512 data
  strBytes "AVX512 results: " ++ natStr results.length ++ [10] ++
    (match results.head? with
     | some sp => spanBytes data sp ++ [10]
     | none => [])

/-- Top level of `main` (src/main.cc:269-305).  `argc` is the argument
count; `fileResult` models the `MappedFile` constructor
(src/main.cc:28-48): `.error msg` when open / fstat / mmap fails (the
exception message, printed to stderr followed by a newline, exit code
1), `.ok data` the successfully mapped bytes. -/
def runProgram (argc : Nat) (fileResult : Except (List Nat) (List Nat)) : Outcome :=
  if argc ≠ 2 then Outcome.exited 1 [] usageMsg
  else
    match fileResult with
    | Except.error e => Outcome.exited 1 [] (e ++ [10])
    | Except.ok data => mainRun data


/-- Indices of the newline bytes of a block, in increasing order. -/
def nlPositions : List Nat → List Nat
  | [] => []
  | b :: rest =>
    if b = NL then 0 :: (nlPositions rest).map (· + 1)
    else (nlPositions rest).map (· + 1)

/-- `naiveGo` without the final-piece emission: the spans for the
newlines of the bytes and the line start after them. -/
def scanPart : List Nat → Nat → Nat → List Span × Nat
  | [], _, start => ([], start)
  | b :: rest, i, start =>
    if b = NL then
      ((start, i - start) :: (scanPart rest (i + 1) (i + 1)).1,
       (scanPart rest (i + 1) (i + 1)).2)
    else scanPart rest (i + 1) start


/-- The spans start at `s` and are consecutive: each span begins where
the previous one ended plus the single skipped delimiter byte. -/
def chainFrom (s : Nat) : List Span → Bool
  | [] => true
  | sp :: rest => (sp.1 == s) && chainFrom (sp.1 + sp.2 + 1) rest

/-- The buffer with one trailing delimiter byte removed, if present. -/
def trimNL (l : List Nat) : List Nat :=
  if l.getLast? = some NL then l.dropLast else l

/-- Concatenate byte lists with single delimiter bytes between them. -/
def joinBytes : List (List Nat) → List Nat
  | [] => []
  | [x] => x
  | x :: y :: xs => x ++ NL :: joinBytes (y :: xs)

/-- Concatenate the bytes of the spans with single delimiter bytes
between them. -/
def joinSpans (data : List Nat) (spans : List Span) : List Nat :=
  joinBytes (spans.map (spanBytes data))


/-- `n` further updates with value `v` applied to an accumulator. -/
def updateN : Nat → StationData → ℚ → StationData
  | 0, s, _ => s
  | n + 1, s, v => updateN n (s.update v) v

/-- `mainRun` with the (provably equal) scalar splitter substituted,
for evaluating concrete runs. -/

theorem tzcnt_two_mul (m : Nat) (hm : m ≠ 0) : tzcnt (2 * m) = tzcnt m + 1 := by
  rw [tzcnt]
  have h1 : ¬ (2 * m = 0) := by omega
  have h2 : ¬ (2 * m % 2 = 1) := by omega
  rw [if_neg h1, if_neg h2, Nat.mul_div_cancel_left m (by norm_num : 0 < 2)]

theorem tzcnt_odd (m : Nat) : tzcnt (2 * m + 1) = 0 := by
  rw [tzcnt]
  have h1 : ¬ (2 * m + 1 = 0) := by omega
  have h2 : (2 * m + 1) % 2 = 1 := by omega
  rw [if_neg h1, if_pos h2]

theorem land_pred_odd (m : Nat) : (2 * m + 1) &&& (2 * m) = 2 * m := by
  apply Nat.eq_of_testBit_eq
  intro i
  rw [Nat.testBit_land]
  cases i with
  | zero =>
    have : (2 * m) % 2 = 0 := by omega
    simp [Nat.testBit_zero, this]
  | succ j =>
    have e1 : (2 * m + 1) / 2 = m := by omega
    have e2 : (2 * m) / 2 = m := by omega
    rw [Nat.testBit_succ, Nat.testBit_succ, e1, e2, Bool.and_self]

theorem land_two_mul_pred (m : Nat) :
    (2 * m) &&& (2 * m - 1) = 2 * (m &&& (m - 1)) := by
  apply Nat.eq_of_testBit_eq
  intro i
  rw [Nat.testBit_land]
  cases i with
  | zero =>
    have h1 : (2 * m) % 2 = 0 := by omega
    have h2 : (2 * (m &&& (m - 1))) % 2 = 0 := by omega
    simp [Nat.testBit_zero, h1, h2]
  | succ j =>
    have e1 : (2 * m) / 2 = m := by omega
    have e2 : (2 * m - 1) / 2 = m - 1 := by omega
    have e3 : (2 * (m &&& (m - 1))) / 2 = m &&& (m - 1) := by omega
    rw [Nat.testBit_succ, Nat.testBit_succ, Nat.testBit_succ, e1, e2, e3,
      Nat.testBit_land]

theorem maskPositions_zero : maskPositions 0 = [] := by
  rw [maskPositions]
  simp

theorem maskPositions_two_mul (m : Nat) :
    maskPositions (2 * m) = (maskPositions m).map (· + 1) := by
  induction m using Nat.strong_induction_on with
  | _ m ih =>
    by_cases hm : m = 0
    · subst hm
      simp [maskPositions_zero]
    · have h2 : ¬ (2 * m = 0) := by omega
      conv_lhs => rw [maskPositions]
      conv_rhs => rw [maskPositions]
      rw [dif_neg h2, dif_neg hm]
      rw [tzcnt_two_mul m hm, land_two_mul_pred m, List.map_cons]
      have hlt : m &&& (m - 1) < m :=
        lt_of_le_of_lt Nat.and_le_right (Nat.sub_lt (Nat.pos_of_ne_zero hm) one_pos)
      rw [ih (m &&& (m - 1)) hlt]

theorem maskPositions_two_mul_add_one (m : Nat) :
    maskPositions (2 * m + 1) = 0 :: maskPositions (2 * m) := by
  have h1 : ¬ (2 * m + 1 = 0) := by omega
  rw [maskPositions, dif_neg h1, tzcnt_odd]
  have e : 2 * m + 1 - 1 = 2 * m := by omega
  rw [e, land_pred_odd]

theorem maskPositions_blockMask (bs : List Nat) :
    maskPositions (blockMask bs) = nlPositions bs := by
  induction bs with
  | nil => simp [blockMask, nlPositions, maskPositions_zero]
  | cons b rest ih =>
    by_cases hb : b = NL
    · simp only [blockMask, nlPositions, if_pos hb]
      have e : 1 + 2 * blockMask rest = 2 * blockMask rest + 1 := by omega
      rw [e, maskPositions_two_mul_add_one, maskPositions_two_mul, ih]
    · simp only [blockMask, nlPositions, if_neg hb]
      have e : 0 + 2 * blockMask rest = 2 * blockMask rest := by omega
      rw [e, maskPositions_two_mul, ih]

theorem emitBlock_map_add_one (base : Nat) (l : List Nat) :
    ∀ s, emitBlock base (l.map (· + 1)) s = emitBlock (base + 1) l s := by
  induction l with
  | nil => intro s; rfl
  | cons p rest ih =>
    intro s
    simp only [List.map_cons, emitBlock]
    have e1 : base + (p + 1) = base + 1 + p := by omega
    rw [e1, ih]

theorem emitBlock_nlPositions (bs : List Nat) :
    ∀ base s, emitBlock base (nlPositions bs) s = scanPart bs base s := by
  induction bs with
  | nil => intro base s; rfl
  | cons b rest ih =>
    intro base s
    by_cases hb : b = NL
    · simp only [nlPositions, if_pos hb, emitBlock, scanPart]
      rw [emitBlock_map_add_one, ih]
      simp [hb]
    · simp only [nlPositions, if_neg hb, scanPart, if_neg hb]
      rw [emitBlock_map_add_one, ih]

theorem scanPart_snd_le (bs : List Nat) :
    ∀ i s, s ≤ i → (scanPart bs i s).2 ≤ i + bs.length := by
  induction bs with
  | nil => intro i s h; simpa [scanPart] using h
  | cons b rest ih =>
    intro i s h
    by_cases hb : b = NL
    · simp only [scanPart, if_pos hb, List.length_cons]
      have := ih (i + 1) (i + 1) le_rfl
      omega
    · simp only [scanPart, if_neg hb, List.length_cons]
      have := ih (i + 1) s (h.trans (Nat.le_succ i))
      omega

theorem naiveGo_append (a : List Nat) :
    ∀ (b : List Nat) i s, naiveGo (a ++ b) i s =
      (scanPart a i s).1 ++ naiveGo b (i + a.length) (scanPart a i s).2 := by
  induction a with
  | nil => intro b i s; simp [scanPart]
  | cons c a' ih =>
    intro b i s
    by_cases hc : c = NL
    · simp only [List.cons_append, naiveGo, scanPart, if_pos hc, List.length_cons,
        List.append_eq]
      rw [ih]
      have e : i + 1 + a'.length = i + (a'.length + 1) := by omega
      simp [e]
    · simp only [List.cons_append, naiveGo, scanPart, if_neg hc, List.length_cons,
        List.append_eq]
      rw [ih]
      have e : i + 1 + a'.length = i + (a'.length + 1) := by omega
      rw [e]

theorem tailGo_eq_naiveGo (data : List Nat) :
    ∀ i s, s ≤ i → tailGo data i s = naiveGo data i s := by
  induction data with
  | nil =>
    intro i s h
    simp only [tailGo, naiveGo]
    by_cases he : s = i
    · simp [he]
    · have hlt : s < i := lt_of_le_of_ne h he
      simp [he, hlt]
  | cons b rest ih =>
    intro i s h
    by_cases hb : b = NL
    · simp only [tailGo, naiveGo, if_pos hb]
      rw [ih (i + 1) (i + 1) le_rfl]
    · simp only [tailGo, naiveGo, if_neg hb]
      rw [ih (i + 1) s (h.trans (Nat.le_succ i))]

theorem simdLoop_eq_naiveGo (W : Nat) :
    ∀ n (data : List Nat), data.length ≤ n → ∀ base s, s ≤ base →
      simdLoop W data base s = naiveGo data base s := by
  intro n
  induction n with
  | zero =>
    intro data hlen base s hs
    have hd : data = [] := List.length_eq_zero.mp (Nat.le_zero.mp hlen)
    subst hd
    rw [simdLoop]
    have hcond : ¬ (0 < W ∧ W ≤ ([] : List Nat).length) := by
      simp only [List.length_nil]
      omega
    rw [dif_neg hcond]
    exact tailGo_eq_naiveGo [] base s hs
  | succ n ih =>
    intro data hlen base s hs
    rw [simdLoop]
    by_cases h : 0 < W ∧ W ≤ data.length
    · rw [dif_pos h]
      have hTlen : (data.take W).length = W := by
        rw [List.length_take]
        exact min_eq_left h.2
      conv_rhs => rw [← List.take_append_drop W data]
      rw [naiveGo_append, maskPositions_blockMask, emitBlock_nlPositions, hTlen]
      congr 1
      apply ih
      · rw [List.length_drop]; omega
      · have := scanPart_snd_le (data.take W) base s hs
        rw [hTlen] at this
        exact this
    · rw [dif_neg h]
      exact tailGo_eq_naiveGo data base s hs

theorem split_sse2_eq_naive (data : List Nat) :
    split_by_rows_sse2 data = split_by_rows_naive data :=
  simdLoop_eq_naiveGo 16 data.length data le_rfl 0 0 le_rfl

theorem split_avx2_eq_naive (data : List Nat) :
    split_by_rows_avx2 data = split_by_rows_naive data :=
  simdLoop_eq_naiveGo 32 data.length data le_rfl 0 0 le_rfl

theorem split_avx512_eq_naive (data : List Nat) :
    split_by_rows_avx512 data = split_by_rows_naive data :=
  simdLoop_eq_naiveGo 64 data.length data le_rfl 0 0 le_rfl


theorem naiveGo_cons_nl (rest : List Nat) (i s : Nat) :
    naiveGo (NL :: rest) i s = (s, i - s) :: naiveGo rest (i + 1) (i + 1) := by
  simp [naiveGo]

theorem naiveGo_ne_nil (rest : List Nat) :
    ∀ i s, s < i + rest.length → naiveGo rest i s ≠ [] := by
  induction rest with
  | nil =>
    intro i s h
    simp only [List.length_nil, Nat.add_zero] at h
    simp [naiveGo, h]
  | cons b rest' ih =>
    intro i s h
    by_cases hb : b = NL
    · simp [naiveGo, hb]
    · simp only [naiveGo, if_neg hb]
      exact ih (i + 1) s (by simp only [List.length_cons] at h; omega)

theorem chainFrom_naiveGo (data : List Nat) :
    ∀ i s, s ≤ i → chainFrom s (naiveGo data i s) = true := by
  induction data with
  | nil =>
    intro i s h
    by_cases hs : s < i
    · simp [naiveGo, hs, chainFrom]
    · simp [naiveGo, hs, chainFrom]
  | cons b rest ih =>
    intro i s h
    by_cases hb : b = NL
    · subst hb
      rw [naiveGo_cons_nl]
      simp only [chainFrom, Bool.and_eq_true, beq_iff_eq]
      refine ⟨trivial, ?_⟩
      have e : s + (i - s) + 1 = i + 1 := by omega
      rw [e]
      exact ih (i + 1) (i + 1) le_rfl
    · simp only [naiveGo, if_neg hb]
      exact ih (i + 1) s (by omega)

theorem trimNL_of_no_NL (l : List Nat) (h : ∀ x ∈ l, x ≠ NL) : trimNL l = l := by
  unfold trimNL
  cases hl : l.getLast? with
  | none => simp
  | some a =>
    have hal : a ∈ l.getLast? := Option.mem_def.mpr hl
    obtain ⟨hne, heq⟩ := List.mem_getLast?_eq_getLast hal
    have ha : a ∈ l := heq ▸ List.getLast_mem hne
    have : ¬ (a = NL) := h a ha
    simp [this]

theorem trimNL_append (x y : List Nat) (hy : y ≠ []) :
    trimNL (x ++ y) = x ++ trimNL y := by
  unfold trimNL
  rw [List.getLast?_append]
  cases hl : y.getLast? with
  | none =>
    exact absurd hl (by simp [List.getLast?_eq_getLast_of_ne_nil hy])
  | some a =>
    rw [Option.or_some]
    by_cases ha : a = NL
    · subst ha
      simp [hl, List.dropLast_append_of_ne_nil x hy]
    · simp [hl, ha]

theorem joinBytes_cons_of_ne_nil (x : List Nat) (xs : List (List Nat)) (h : xs ≠ []) :
    joinBytes (x :: xs) = x ++ NL :: joinBytes xs := by
  cases xs with
  | nil => exact absurd rfl h
  | cons y ys => rfl

theorem joinGo (data : List Nat) : ∀ (rest : List Nat) (i s : Nat),
    s ≤ i → i + rest.length = data.length → rest = data.drop i →
    (∀ x ∈ (data.drop s).take (i - s), x ≠ NL) →
    joinBytes ((naiveGo rest i s).map (spanBytes data)) = trimNL (data.drop s) := by
  intro rest
  induction rest with
  | nil =>
    intro i s hsi hlen hdrop hinv
    simp only [List.length_nil, Nat.add_zero] at hlen
    have hds : data.drop s = (data.drop s).take (i - s) ++ data.drop i := by
      conv_lhs => rw [← List.take_append_drop (i - s) (data.drop s)]
      rw [List.drop_drop]
      congr 2
      omega
    by_cases hs : s < i
    · simp only [naiveGo, if_pos hs, List.map_cons, List.map_nil]
      have hdi : data.drop i = [] := hdrop.symm
      rw [hdi, List.append_nil] at hds
      have hj : joinBytes [spanBytes data (s, i - s)] = (data.drop s).take (i - s) := rfl
      rw [hj, ← hds]
      exact (trimNL_of_no_NL _ (fun x hx => hinv x (hds ▸ hx))).symm
    · have hsi' : s = i := by omega
      subst hsi'
      simp only [naiveGo, if_neg hs, List.map_nil]
      have hj : joinBytes ([] : List (List Nat)) = [] := rfl
      rw [hj, ← hdrop]
      simp [trimNL]
  | cons b rest' ih =>
    intro i s hsi hlen hdrop hinv
    have hget : data[i]? = some b := by
      have h0 : (data.drop i)[0]? = some b := by rw [← hdrop]; simp
      rw [List.getElem?_drop] at h0
      simpa using h0
    have hdrop1 : data.drop (i + 1) = rest' := by
      have h1 : List.drop 1 (data.drop i) = data.drop (i + 1) := by
        rw [List.drop_drop]
      rw [← h1, ← hdrop]
      rfl
    have hds : data.drop s = (data.drop s).take (i - s) ++ data.drop i := by
      conv_lhs => rw [← List.take_append_drop (i - s) (data.drop s)]
      rw [List.drop_drop]
      congr 2
      omega
    by_cases hb : b = NL
    · subst hb
      rw [naiveGo_cons_nl, List.map_cons]
      cases rest' with
      | nil =>
        rw [show naiveGo [] (i + 1) (i + 1) = [] from by simp [naiveGo], List.map_nil]
        have hj : joinBytes [spanBytes data (s, i - s)] = (data.drop s).take (i - s) := rfl
        rw [hj]
        have hdi : data.drop i = [NL] := hdrop.symm
        rw [hdi] at hds
        conv_rhs => rw [hds]
        unfold trimNL
        rw [List.getLast?_concat]
        simp [List.dropLast_concat]
      | cons c cs =>
        have hne : naiveGo (c :: cs) (i + 1) (i + 1) ≠ [] :=
          naiveGo_ne_nil _ _ _ (by simp only [List.length_cons]; omega)
        have hmapne : (naiveGo (c :: cs) (i + 1) (i + 1)).map (spanBytes data) ≠ [] := by
          intro hmap
          exact hne (List.map_eq_nil_iff.mp hmap)
        rw [joinBytes_cons_of_ne_nil _ _ hmapne]
        have hIH := ih (i + 1) (i + 1) le_rfl
          (by simp only [List.length_cons] at hlen ⊢; omega) hdrop1.symm
          (by simp)
        rw [hIH]
        have hdi : data.drop i = NL :: data.drop (i + 1) := by
          rw [← hdrop, hdrop1]
        have hrne : data.drop (i + 1) ≠ [] := by
          rw [hdrop1]
          simp
        rw [hds, hdi,
          show (NL :: data.drop (i + 1)) = [NL] ++ data.drop (i + 1) from rfl,
          ← List.append_assoc, trimNL_append _ _ hrne]
        simp [spanBytes]
    · simp only [naiveGo, if_neg hb]
      have htake : (data.drop s).take (i + 1 - s) = (data.drop s).take (i - s) ++ [b] := by
        have e : i + 1 - s = (i - s) + 1 := by omega
        rw [e, List.take_succ]
        have hg : (data.drop s)[i - s]? = some b := by
          rw [List.getElem?_drop, show s + (i - s) = i from by omega]
          exact hget
        rw [hg]
        rfl
      exact ih (i + 1) s (by omega)
        (by simp only [List.length_cons] at hlen; omega) hdrop1.symm
        (by
          intro x hx
          rw [htake] at hx
          rcases List.mem_append.mp hx with h1 | h2
          · exact hinv x h1
          · rw [List.mem_singleton.mp h2]
            exact hb)

theorem joinSpans_naive (data : List Nat) :
    joinSpans data (split_by_rows_naive data) = trimNL data := by
  have h := joinGo data data 0 0 le_rfl (by simp) (by simp) (by simp)
  simpa [joinSpans, split_by_rows_naive] using h


theorem mainRun_eq_naive (data : List Nat) :
    mainRun data =
      (match (split_by_rows_naive data).head? with
       | none =>
         Outcome.aborted
           (strBytes "AVX512 results: " ++ natStr (split_by_rows_naive data).length ++ [10])
       | some sp =>
         Outcome.exited 0
           (strBytes "AVX512 results: " ++ natStr (split_by_rows_naive data).length ++ [10] ++
             spanBytes data sp ++ [10] ++ emptySummary) []) := by
  simp only [mainRun, split_avx512_eq_naive]

theorem storeUpsert_inv (m : List (List Nat × StationData)) (k : List Nat) (v : ℚ)
    (n : Nat) (hm : ∀ e ∈ m, e.2.min ≤ e.2.max ∧ 1 ≤ e.2.count ∧ e.2.count ≤ n)
    (hn : n + 1 < U32) :
    ∀ e ∈ storeUpsert m k v, e.2.min ≤ e.2.max ∧ 1 ≤ e.2.count ∧ e.2.count ≤ n + 1 := by
  intro e he
  unfold storeUpsert at he
  by_cases hany : m.any (fun e => e.1 == k)
  · rw [if_pos hany] at he
    obtain ⟨e', he', hfe⟩ := List.mem_map.mp he
    by_cases hk : e'.1 == k
    · rw [if_pos hk] at hfe
      obtain ⟨h1, h2, h3⟩ := hm e' he'
      subst hfe
      refine ⟨?_, ?_, ?_⟩
      · exact le_trans (min_le_left _ _) (le_trans h1 (le_max_left _ _))
      · show 1 ≤ (e'.2.count + 1) % U32
        rw [Nat.mod_eq_of_lt (by omega)]
        omega
      · show (e'.2.count + 1) % U32 ≤ n + 1
        rw [Nat.mod_eq_of_lt (by omega)]
        omega
    · rw [if_neg hk] at hfe
      subst hfe
      obtain ⟨h1, h2, h3⟩ := hm e' he'
      exact ⟨h1, h2, by omega⟩
  · rw [if_neg hany] at he
    rcases List.mem_append.mp he with h1 | h2
    · obtain ⟨ha, hb, hc⟩ := hm e h1
      exact ⟨ha, hb, by omega⟩
    · rw [List.mem_singleton.mp h2]
      refine ⟨le_rfl, le_rfl, ?_⟩
      show 1 ≤ n + 1
      omega

theorem storeRun_inv (recs : List (List Nat × ℚ)) :
    ∀ (m : List (List Nat × StationData)) (n : Nat),
      (∀ e ∈ m, e.2.min ≤ e.2.max ∧ 1 ≤ e.2.count ∧ e.2.count ≤ n) →
      n + recs.length < U32 →
      ∀ e ∈ recs.foldl (fun m r => storeUpsert m r.1 r.2) m,
        e.2.min ≤ e.2.max ∧ 1 ≤ e.2.count ∧ e.2.count ≤ n + recs.length := by
  induction recs with
  | nil =>
    intro m n hm _ e he
    simpa using hm e he
  | cons r rs ih =>
    intro m n hm hn e he
    simp only [List.foldl_cons] at he
    simp only [List.length_cons] at hn ⊢
    have step := storeUpsert_inv m r.1 r.2 n hm (by omega)
    have := ih (storeUpsert m r.1 r.2) (n + 1) step (by omega) e he
    exact ⟨this.1, this.2.1, by omega⟩

theorem storeRun_replicate_same (k : List Nat) (v : ℚ) :
    ∀ (n : Nat) (s : StationData),
      List.foldl (fun m r => storeUpsert m r.1 r.2) [(k, s)] (List.replicate n (k, v)) =
        [(k, updateN n s v)] := by
  intro n
  induction n with
  | zero => intro s; rfl
  | succ n ih =>
    intro s
    rw [List.replicate_succ, List.foldl_cons]
    have hup : storeUpsert [(k, s)] k v = [(k, s.update v)] := by
      unfold storeUpsert
      simp
    rw [hup, ih]
    rfl

theorem updateN_const_zero :
    ∀ (n c : Nat), c < U32 →
      updateN n ⟨0, 0, c, 0⟩ 0 = ⟨0, 0, (c + n) % U32, 0⟩ := by
  intro n
  induction n with
  | zero =>
    intro c hc
    simp only [updateN]
    rw [Nat.add_zero, Nat.mod_eq_of_lt hc]
  | succ n ih =>
    intro c hc
    show updateN n (StationData.update ⟨0, 0, c, 0⟩ 0) 0 = _
    have hup : StationData.update ⟨0, 0, c, 0⟩ 0 = ⟨0, 0, (c + 1) % U32, 0⟩ := by
      unfold StationData.update
      simp
    rw [hup, ih ((c + 1) % U32) (Nat.mod_lt _ (by norm_num [U32]))]
    rw [Nat.mod_add_mod]
    have e : c + 1 + n = c + (n + 1) := by omega
    rw [e]


theorem diagBytes_eq_naive (data : List Nat) :
    diagBytes data =
      strBytes "AVX512 results: " ++ natStr (split_by_rows_naive data).length ++ [10] ++
        (match (split_by_rows_naive data).head? with
         | some sp => spanBytes data sp ++ [10]
         | none => []) := by
  simp only [diagBytes, split_avx512_eq_naive]

/-- C1: for every input buffer, the scalar splitter and each vectorized
splitter variant (SSE2 16-byte, AVX2 32-byte, AVX-512 64-byte) return
exactly the same ordered sequence of line spans (same offsets and
lengths, in the same order). -/
theorem claim_C1_splitter_equivalence (data : List Nat) :
    split_by_rows_sse2 data = split_by_rows_naive data ∧
    split_by_rows_avx2 data = split_by_rows_naive data ∧
    split_by_rows_avx512 data = split_by_rows_naive data :=
  ⟨split_sse2_eq_naive data, split_avx2_eq_naive data, split_avx512_eq_naive data⟩

/-- C2 (code bug): the claimed equality between the concurrent pipeline
and a single-threaded reference reducer fails because `main` never
dispatches any record to the workers: on input "A;10.0\n" the program's
station map stays empty (it prints the diagnostic, the empty summary,
and exits 0), while the reference reducer produces the accumulator
(min 10, max 10, count 1, sum 10) for key "A". -/
theorem claim_C2_pipeline_missing_dispatch :
    mainRun (strBytes "A;10.0\n") =
      Outcome.exited 0
        (strBytes "AVX512 results: 1" ++ [10] ++ strBytes "A;10.0" ++ [10] ++ emptySummary)
        [] ∧
    referenceReduce (strBytes "A;10.0\n") = [(strBytes "A", ⟨10, 10, 1, 10⟩)] := by
  constructor
  · rw [mainRun_eq_naive]
    decide
  · decide

/-- C3 (code bug): on the three-line input the program does not print
the claimed aggregated summary with entries for A and B: no aggregation
is ever dispatched, so it prints the AVX-512 diagnostic followed by the
empty summary, and exits 0. -/
theorem claim_C3_concrete_run :
    mainRun (strBytes "A;10.0\nB;20.0\nA;30.0\n") =
      Outcome.exited 0
        (strBytes "AVX512 results: 3" ++ [10] ++ strBytes "A;10.0" ++ [10] ++ emptySummary)
        [] := by
  rw [mainRun_eq_naive]
  decide

/-- C4 (code bug): on the well-formed line "A;10.0" the parser takes
the key correctly but passes `from_chars` the one-byte range starting
at the separator itself, so the numeric decode fails (`none`: the C++
output variable stays uninitialized) even though the entire text after
the separator decodes to 10. -/
theorem claim_C4_from_chars_range :
    process_line_parsed (strBytes "A;10.0") = (strBytes "A", none) ∧
    fromCharsQ (strBytes "10.0") = some 10 :=
  ⟨by decide, by decide⟩

/-- C5 (counterexample): for the buffer "a\n" (bytes 97, 10) the naive
and AVX-512 splitters emit the single span (0, 1), and joining the
emitted spans with single delimiter bytes between them yields "a", not
the original buffer: the claimed round-trip fails on every buffer that
ends with the delimiter. -/
theorem claim_C5_counterexample :
    joinSpans (strBytes "a\n") (split_by_rows_naive (strBytes "a\n")) ≠ strBytes "a\n" ∧
    joinSpans (strBytes "a\n") (split_by_rows_avx512 (strBytes "a\n")) ≠ strBytes "a\n" := by
  constructor
  · decide
  · rw [split_avx512_eq_naive]
    decide

/-- C5 (amended): the emitted spans are contiguous from offset 0 and do
not overlap (each starts where the previous one ended plus the skipped
delimiter byte), a trailing line without a final delimiter is still
emitted (every nonempty buffer yields at least one span), and joining
the spans with single delimiter bytes between them reconstructs the
buffer up to one optional trailing delimiter: exactly the buffer when
it does not end with the delimiter, and the buffer minus its final
delimiter byte when it does. -/
theorem claim_C5_amended_roundtrip (data : List Nat) :
    chainFrom 0 (split_by_rows_naive data) = true ∧
    joinSpans data (split_by_rows_naive data) = trimNL data ∧
    (data ≠ [] → split_by_rows_naive data ≠ []) := by
  refine ⟨chainFrom_naiveGo data 0 0 le_rfl, joinSpans_naive data, ?_⟩
  intro h
  show naiveGo data 0 0 ≠ []
  apply naiveGo_ne_nil
  have := List.length_pos.mpr h
  omega

/-- C5 witness at the buffer "a\nb". -/
theorem claim_C5_witness :
    chainFrom 0 (split_by_rows_naive (strBytes "a\nb")) = true ∧
    joinSpans (strBytes "a\nb") (split_by_rows_naive (strBytes "a\nb")) =
      trimNL (strBytes "a\nb") ∧
    split_by_rows_naive (strBytes "a\nb") ≠ [] :=
  ⟨(claim_C5_amended_roundtrip (strBytes "a\nb")).1,
   (claim_C5_amended_roundtrip (strBytes "a\nb")).2.1,
   (claim_C5_amended_roundtrip (strBytes "a\nb")).2.2 (by decide)⟩

/-- C6 (counterexample): on input "A;notanumber\n" the process does not
exit non-zero and does print output: it exits 0 and writes the
diagnostic line followed by the empty summary to stdout. -/
theorem claim_C6_counterexample :
    mainRun (strBytes "A;notanumber\n") =
      Outcome.exited 0
        (strBytes "AVX512 results: 1" ++ [10] ++ strBytes "A;notanumber" ++ [10] ++
          emptySummary)
        [] ∧
    strBytes "AVX512 results: 1" ++ [10] ++ strBytes "A;notanumber" ++ [10] ++
        emptySummary ≠ [] := by
  constructor
  · rw [mainRun_eq_naive]
    decide
  · decide

/-- C6 (amended): malformed numeric text is not detected at all: on
input "A;notanumber\n" the process exits 0 and prints the diagnostic
line and the empty summary (no accumulator for any key is ever created
or updated), although the spec's record-parser contract rejects the
line, as there is no valid number after the separator. -/
theorem claim_C6_amended_no_validation :
    mainRun (strBytes "A;notanumber\n") =
      Outcome.exited 0 (diagBytes (strBytes "A;notanumber\n") ++ emptySummary) [] ∧
    specParseLine (strBytes "A;notanumber") = none := by
  constructor
  · rw [mainRun_eq_naive, diagBytes_eq_naive]
    decide
  · decide

/-- C7 (code bug): on the empty input, instead of succeeding with the
empty summary, the run prints only the count part of the diagnostic and
aborts: `results.at(0)` on the empty span vector throws
`std::out_of_range`, which is never caught. -/
theorem claim_C7_empty_input_aborts :
    mainRun [] = Outcome.aborted (strBytes "AVX512 results: 0" ++ [10]) := by
  rw [mainRun_eq_naive]
  decide

/-- C8 (counterexample): `count` is a 32-bit unsigned integer, so after
exactly 2^32 records for one key the accumulator's count has wrapped
back to 0 while the key is still present (and would be printed): the
invariant count ≥ 1 fails for unbounded operation sequences. -/
theorem claim_C8_counterexample :
    storeRun (List.replicate U32 (strBytes "A", (0 : ℚ))) =
      [(strBytes "A", ⟨0, 0, 0, 0⟩)] := by
  have hrep : List.replicate U32 (strBytes "A", (0 : ℚ)) =
      (strBytes "A", (0 : ℚ)) :: List.replicate (U32 - 1) (strBytes "A", (0 : ℚ)) := by
    have e1 : U32 = U32 - 1 + 1 := by norm_num [U32]
    conv_lhs => rw [e1]
    rw [List.replicate_succ]
  rw [storeRun, hrep, List.foldl_cons]
  have h0 : storeUpsert [] (strBytes "A") 0 = [(strBytes "A", StationData.init 0)] := rfl
  rw [h0, storeRun_replicate_same]
  have hinit : StationData.init 0 = ⟨0, 0, 1, 0⟩ := rfl
  rw [hinit, updateN_const_zero (U32 - 1) 1 (by norm_num [U32])]
  have e : 1 + (U32 - 1) = U32 := by norm_num [U32]
  rw [e, Nat.mod_self]

/-- C8 (amended): for every key present in the store after any sequence
of fewer than 2^32 insert-or-update operations that applied at least
one record to it, the invariant min ≤ max and count ≥ 1 holds, so no
key with count = 0 appears in the reported output (which prints exactly
the store's entries). -/
theorem claim_C8_amended_invariant (recs : List (List Nat × ℚ))
    (h : recs.length < U32) :
    (storeRun recs).all
      (fun e => decide (e.2.min ≤ e.2.max) && decide (1 ≤ e.2.count)) = true := by
  rw [List.all_eq_true]
  intro e he
  have hinv := storeRun_inv recs [] 0 (by simp) (by simpa using h) e
    (by simpa [storeRun] using he)
  simp only [Bool.and_eq_true, decide_eq_true_eq]
  exact ⟨hinv.1, hinv.2.1⟩

/-- C8 witness at two records with distinct keys. -/
theorem claim_C8_witness :
    ([(strBytes "A", (10 : ℚ)), (strBytes "B", (20 : ℚ))] : List (List Nat × ℚ)).length
      < U32 ∧
    (storeRun [(strBytes "A", (10 : ℚ)), (strBytes "B", (20 : ℚ))]).all
      (fun e => decide (e.2.min ≤ e.2.max) && decide (1 ≤ e.2.count)) = true :=
  ⟨by decide, claim_C8_amended_invariant _ (by decide)⟩

/-- C9: a wrong argument count exits 1 with the usage message on
stderr; a failed open/stat/map exits 1 with the exception message on
stderr; every run that exits normally on a mapped file exits 0 with the
summary (preceded by the diagnostic) on stdout and nothing on stderr. -/
theorem claim_C9_cli_exit_codes (argc : Nat) (fr : Except (List Nat) (List Nat)) :
    (argc ≠ 2 → runProgram argc fr = Outcome.exited 1 [] usageMsg) ∧
    (∀ e, fr = Except.error e → argc = 2 →
      runProgram argc fr = Outcome.exited 1 [] (e ++ [10])) ∧
    (∀ d c out err, fr = Except.ok d → argc = 2 →
      runProgram argc fr = Outcome.exited c out err →
      c = 0 ∧ out = diagBytes d ++ emptySummary ∧ err = []) := by
  refine ⟨?_, ?_, ?_⟩
  · intro h
    simp [runProgram, h]
  · intro e hfr h2
    subst hfr
    subst h2
    simp [runProgram]
  · intro d c out err hfr h2 hrun
    subst hfr
    subst h2
    rw [show runProgram 2 (Except.ok d) = mainRun d from by simp [runProgram]] at hrun
    simp only [mainRun] at hrun
    cases hh : (split_by_rows_avx512 d).head? with
    | none =>
      rw [hh] at hrun
      simp at hrun
    | some sp =>
      rw [hh] at hrun
      cases hrun
      refine ⟨rfl, ?_, rfl⟩
      simp [diagBytes, hh, List.append_assoc]

/-- C9 witness: a wrong-argument run, a failed-mapping run, and the
successful run on the one-line file "x". -/
theorem claim_C9_witness :
    runProgram 3 (Except.ok []) = Outcome.exited 1 [] usageMsg ∧
    runProgram 2 (Except.error (strBytes "Failed to open file")) =
      Outcome.exited 1 [] (strBytes "Failed to open file" ++ [10]) ∧
    (0 = 0 ∧
      strBytes "AVX512 results: 1" ++ [10] ++ strBytes "x" ++ [10] ++ emptySummary =
        diagBytes (strBytes "x") ++ emptySummary ∧
      ([] : List Nat) = []) :=
  ⟨(claim_C9_cli_exit_codes 3 (Except.ok [])).1 (by decide),
   (claim_C9_cli_exit_codes 2 (Except.error (strBytes "Failed to open file"))).2.1
     (strBytes "Failed to open file") rfl rfl,
   (claim_C9_cli_exit_codes 2 (Except.ok (strBytes "x"))).2.2 (strBytes "x") 0
     (strBytes "AVX512 results: 1" ++ [10] ++ strBytes "x" ++ [10] ++ emptySummary) []
     rfl rfl
     (by
       rw [show runProgram 2 (Except.ok (strBytes "x")) = mainRun (strBytes "x") from by
         simp [runProgram]]
       rw [mainRun_eq_naive]
       decide)⟩

/-- C10 (counterexample): on the (successfully mapped) empty buffer the
program writes only "AVX512 results: 0" and a newline before aborting:
no first-span contents and no braced summary are ever written, so the
diagnostic-then-summary claim fails for this run (byte 123 is the
opening brace; it never appears in the output). -/
theorem claim_C10_counterexample :
    mainRun [] = Outcome.aborted (strBytes "AVX512 results: 0" ++ [10]) ∧
    (strBytes "AVX512 results: 0" ++ [10]).contains 123 = false := by
  constructor
  · rw [mainRun_eq_naive]
    decide
  · decide

/-- C10 (amended): for every successfully-mapped run on a nonempty
buffer, stdout is the diagnostic line (span count, then first span)
followed by the braced summary, and is therefore never the summary
alone; on an empty buffer the program aborts after writing only the
count line. -/
theorem claim_C10_amended_diag (data : List Nat) (h : data ≠ []) :
    mainRun data = Outcome.exited 0 (diagBytes data ++ emptySummary) [] ∧
    diagBytes data ++ emptySummary ≠ emptySummary := by
  have hne : split_by_rows_avx512 data ≠ [] := by
    rw [split_avx512_eq_naive]
    show naiveGo data 0 0 ≠ []
    apply naiveGo_ne_nil
    have := List.length_pos.mpr h
    omega
  obtain ⟨sp, hsp⟩ : ∃ sp, (split_by_rows_avx512 data).head? = some sp := by
    cases hs : split_by_rows_avx512 data with
    | nil => exact absurd hs hne
    | cons a l => exact ⟨a, by simp [hs]⟩
  constructor
  · simp only [mainRun]
    rw [hsp]
    simp [diagBytes, hsp, List.append_assoc]
  · intro heq
    have hlen := congrArg List.length heq
    rw [List.length_append] at hlen
    have h16 : 16 ≤ (diagBytes data).length := by
      unfold diagBytes
      simp only [List.length_append]
      have : (strBytes "AVX512 results: ").length = 16 := by decide
      omega
    omega

/-- C10 witness at the one-byte buffer "x". -/
theorem claim_C10_witness :
    mainRun (strBytes "x") =
      Outcome.exited 0 (diagBytes (strBytes "x") ++ emptySummary) [] ∧
    diagBytes (strBytes "x") ++ emptySummary ≠ emptySummary :=
  claim_C10_amended_diag (strBytes "x") (by decide)

end OneBRC
